import Mathlib

/-! LifeTrack: the to-do module of `src/App.js`.

A shallow embedding of the task / streak / achievement logic of `TodoModule`
(`src/App.js`, lines 70-274) together with the properties proved about it.

Modelling conventions.

* A calendar day (the value rendered by `Date.prototype.toDateString`) is its
  day number, an integer; `toDateString` is injective on days, so comparing the
  rendered strings is comparing day numbers.
* A JavaScript number that the program computes is an integer or `NaN`;
  `NaN` is `none` (`JsNum`).  Counters (`streak`, lengths) are natural numbers.
* A task's `due` string is kept in parsed form (`Due`): the empty string, a
  string that `new Date` parses to a time value, or a non-empty string that it
  does not parse.  `createdAt` is the time value `new Date(createdAt)` yields.
* React state setters are explicit state passing: a handler maps the state it
  closes over to the state after the handler's queued updates.
-/

namespace LifeTrack

/-! ## Data model -/

/-- A calendar day, as a day number. -/
abbrev Day := Int

/-- A number as the program computes it: an integer, or `NaN` (`none`). -/
abbrev JsNum := Option Int

/-- Subtraction of JavaScript numbers: `NaN` is absorbing. -/
def jsSub (x y : JsNum) : JsNum :=
  match x, y with
  | some a, some b => some (a - b)
  | _, _ => none

/-- The `due` field of a task: the string held by the date input. -/
inductive Due where
  /-- The empty string (falsy): no due date. -/
  | unset
  /-- A date string; `ms` is the time value of `new Date(due)`. -/
  | date (ms : Int)
  /-- A non-empty string that `new Date` does not parse (`Invalid Date`). -/
  | invalid
  deriving DecidableEq, Repr

/-- Truthiness of the `due` string (`a.due && ...`). -/
def Due.truthy : Due → Bool
  | .unset => false
  | _ => true

/-- The number `new Date(due)` converts to under subtraction. -/
def Due.time : Due → JsNum
  | .date ms => some ms
  | _ => none

/-- A task object as built by `addTask`. -/
structure Task where
  id : Nat
  text : String
  completed : Bool
  due : Due
  priority : String
  category : String
  createdAt : JsNum
  deriving DecidableEq, Repr

/-- The part of the `TodoModule` state the handlers read and write. -/
structure TodoState where
  tasks : List Task
  streak : Nat
  lastCompleteDate : Option Day
  deriving DecidableEq, Repr

/-- What a handler leaves behind: the state after its queued updates and the
exception it raised, if any. -/
structure Outcome where
  state : TodoState
  error : Option String
  deriving DecidableEq, Repr

/-! ## Streak -/

/-- The constant `oneDay` of `toggleTask`: milliseconds in a day. -/
def oneDay : Int := 86400000

/-- The time value of `new Date(s)` for `s` the `toDateString` rendering of a
day: local midnight of that day, with a fixed offset from UTC.  Across a
change of the offset the code's difference of two local midnights is not a
multiple of `oneDay`; the test that uses it is then decided by the
`toDateString` comparison next to it. -/
def dayTime (d : Day) : Int := d * oneDay

/-- The streak part of `toggleTask` (lines 156-172): given the `streak` and
`lastCompleteDate` the handler closes over and the current day, the values it
sets.  `yesterday` is `today` with `setDate(getDate() - 1)`. -/
def streakStep (streak : Nat) (lastCompleteDate : Option Day) (today : Day) :
    Nat × Option Day :=
  if lastCompleteDate = some today then (streak, lastCompleteDate)
  else
    let yesterday : Day := today - 1
    match lastCompleteDate with
    | none => (streak + 1, some today)
    | some last =>
      if dayTime today - dayTime last = oneDay ∨ last = yesterday then
        (streak + 1, some today)
      else (1, some today)

/-- The handler `toggleTask(id)` (lines 147-173), `today` being the day read
from the clock.  `setTasks(updatedTasks)` is queued before the lookup, so the
task update is part of the state left behind even when the lookup result is
dereferenced while `undefined`. -/
def toggleTask (s : TodoState) (id : Nat) (today : Day) : Outcome :=
  let updatedTasks := s.tasks.map fun task =>
    if task.id = id then { task with completed := !task.completed } else task
  let s1 : TodoState := { s with tasks := updatedTasks }
  match updatedTasks.find? fun task => decide (task.id = id) with
  | none => ⟨s1, some "TypeError"⟩
  | some toggledTask =>
    if !toggledTask.completed then ⟨s1, none⟩
    else
      let r := streakStep s.streak s.lastCompleteDate today
      ⟨{ s1 with streak := r.1, lastCompleteDate := r.2 }, none⟩

/-- The three-case rule of `recordCompletion` as the specification words it. -/
def recordCompletionSpec (count : Nat) (lastCompleteDate : Option Day) (today : Day) :
    Nat × Option Day :=
  if lastCompleteDate = some today then (count, lastCompleteDate)
  else if lastCompleteDate = none ∨ lastCompleteDate = some (today - 1) then
    (count + 1, some today)
  else (1, some today)

/-- Iterating the streak step over the days of successive completions. -/
def recordCompletions (streak : Nat) (lastCompleteDate : Option Day) (days : List Day) :
    Nat × Option Day :=
  days.foldl (fun st d => streakStep st.1 st.2 d) (streak, lastCompleteDate)

/-! ## Task repository -/

/-- The characters `String.prototype.trim` strips: ECMAScript `WhiteSpace`
(TAB, VT, FF, ZWNBSP and the space separators) and `LineTerminator`. -/
def isWhiteSpace (c : Char) : Bool :=
  c.toNat ∈ [0x9, 0xA, 0xB, 0xC, 0xD, 0x20, 0xA0, 0x1680, 0x2028, 0x2029, 0x202F, 0x205F,
    0x3000, 0xFEFF] || (0x2000 ≤ c.toNat && c.toNat ≤ 0x200A)

/-- The method `String.prototype.trim`: strip white space from both ends. -/
def trim (s : String) : String :=
  ⟨(s.data.dropWhile isWhiteSpace).rdropWhile isWhiteSpace⟩

/-- The handler `addTask` (lines 128-144) on the task collection.  `newTask`,
`dueDate`, `priority`, `category` are the form fields; `now` is `Date.now()`
and `created` the time value of the `new Date()` read for `createdAt`. -/
def addTask (tasks : List Task) (newTask : String) (dueDate : Due) (priority category : String)
    (now created : Nat) : List Task :=
  if trim newTask = "" then tasks
  else
    let newTaskObj : Task :=
      { id := now
        text := trim newTask
        completed := false
        due := dueDate
        priority := priority
        category := trim category
        createdAt := some (created : Int) }
    tasks ++ [newTaskObj]

/-- The handler `saveEdit` (lines 185-198) on the task collection; `editingId`
is `null` (`none`) or the id put there by `startEdit`. -/
def saveEdit (tasks : List Task) (editingId : Option Nat) (editText : String) (dueDate : Due)
    (priority category : String) : List Task :=
  tasks.map fun task =>
    if some task.id = editingId then
      { task with text := editText, due := dueDate, priority := priority,
                  category := trim category }
    else task

/-- The handler `deleteTask` (lines 201-203). -/
def deleteTask (tasks : List Task) (id : Nat) : List Task :=
  tasks.filter fun task => decide (task.id ≠ id)

/-- The handler `clearAll` (lines 206-210); `confirmed` is the answer of
`window.confirm`. -/
def clearAll (tasks : List Task) (confirmed : Bool) : List Task :=
  if confirmed then [] else tasks

/-- One form submission to `addTask`: the form fields and the two clock reads. -/
structure AddCall where
  newTask : String
  dueDate : Due
  priority : String
  category : String
  now : Nat
  created : Nat
  deriving DecidableEq, Repr

/-- A sequence of `addTask` calls. -/
def addAll (tasks : List Task) (calls : List AddCall) : List Task :=
  calls.foldl (fun ts c => addTask ts c.newTask c.dueDate c.priority c.category c.now c.created)
    tasks

/-- A user action on the to-do module, with the values it reads from the form
state, the clock and the confirmation dialog. -/
inductive Op where
  | add (call : AddCall)
  | toggle (id : Nat) (today : Day)
  | edit (editingId : Option Nat) (editText : String) (dueDate : Due)
      (priority category : String)
  | remove (id : Nat)
  | clearAll (confirmed : Bool)
  deriving DecidableEq, Repr

/-- The state after one user action. -/
def step (s : TodoState) : Op → TodoState
  | .add c =>
    { s with tasks := addTask s.tasks c.newTask c.dueDate c.priority c.category c.now c.created }
  | .toggle id today => (toggleTask s id today).state
  | .edit editingId editText dueDate priority category =>
    { s with tasks := saveEdit s.tasks editingId editText dueDate priority category }
  | .remove id => { s with tasks := deleteTask s.tasks id }
  | .clearAll confirmed => { s with tasks := clearAll s.tasks confirmed }

/-- The state after a sequence of user actions. -/
def run (s : TodoState) (ops : List Op) : TodoState :=
  ops.foldl step s

/-- The state of a fresh store: no tasks, streak `0`, no completion date. -/
def initialState : TodoState :=
  { tasks := [], streak := 0, lastCompleteDate := none }

/-- The values `Date.now()` returns to the `addTask` calls of a sequence of
actions that get past the empty-text guard, in order. -/
def clockReads (ops : List Op) : List Nat :=
  ops.filterMap fun op =>
    match op with
    | .add c => if trim c.newTask = "" then none else some c.now
    | _ => none

/-! ## View pipeline -/

/-- The method `String.prototype.includes`: `q` occurs in `s` as a substring. -/
def includes (s q : String) : Bool :=
  decide (q.data <:+: s.data)

/-- The derived value `filteredTasks` (lines 213-224).  `toLowerCase` is the
library method `String.prototype.toLowerCase`. -/
def filteredTasks (toLowerCase : String → String) (tasks : List Task)
    (searchQuery filter : String) : List Task :=
  tasks.filter fun task =>
    if searchQuery ≠ "" ∧ !includes (toLowerCase task.text) (toLowerCase searchQuery) then false
    else if filter = "completed" then task.completed
    else if filter = "pending" then !task.completed
    else true

/-- The table `priorityOrder` of the comparator; a key outside the table looks
up `undefined`, which turns into `NaN` under subtraction.  The members the
object literal inherits from `Object.prototype` are not in the model: it is
the table on the keys the priority selector offers. -/
def priorityOrder (priority : String) : JsNum :=
  if priority = "high" then some 1
  else if priority = "medium" then some 2
  else if priority = "low" then some 3
  else none

/-- The comparator passed to `sort` (lines 227-238). -/
def compareTasks (a b : Task) : JsNum :=
  if priorityOrder a.priority ≠ priorityOrder b.priority then
    jsSub (priorityOrder a.priority) (priorityOrder b.priority)
  else if a.due.truthy && b.due.truthy then
    jsSub a.due.time b.due.time
  else
    jsSub b.createdAt a.createdAt

/-- How `Array.prototype.sort` reads a comparator result: `NaN` counts as `0`. -/
def sortValue (v : JsNum) : Int :=
  v.getD 0

/-- Insert `x` into an already ordered list: in front of the first element it
compares strictly below, after everything else (so equal elements keep their
input order). -/
def insertSorted {α : Type} (cmp : α → α → JsNum) (x : α) : List α → List α
  | [] => [x]
  | y :: ys => if sortValue (cmp x y) < 0 then x :: y :: ys else y :: insertSorted cmp x ys

/-- The method `Array.prototype.sort` with a comparator, as a stable insertion
sort: the elements are inserted in input order.  ECMAScript fixes the result
(a stable ordering by the comparator) when the comparator is consistent and
leaves the order to the engine otherwise; this is the ordering a stable
insertion sort produces; on a comparator that is not consistent an engine may
order the elements of one priority class differently. -/
def sort {α : Type} (cmp : α → α → JsNum) (l : List α) : List α :=
  l.foldl (fun acc x => insertSorted cmp x acc) []

/-- The derived value `sortedTasks` (lines 227-238). -/
def sortedTasks (toLowerCase : String → String) (tasks : List Task)
    (searchQuery filter : String) : List Task :=
  sort compareTasks (filteredTasks toLowerCase tasks searchQuery filter)

/-! ## Achievements -/

/-- The derived value `completedTasks` (line 242). -/
def completedTasks (tasks : List Task) : Nat :=
  (tasks.filter fun t => t.completed).length

/-- The set `categoriesUsed` of the achievements effect, as a duplicate-free
list: the non-empty (truthy) categories of the tasks. -/
def categoriesUsed (tasks : List Task) : List String :=
  ((tasks.map fun t => t.category).filter fun c => decide (c ≠ "")).dedup

/-- One guarded `push` of the achievements effect. -/
def pushBadge (cond : Bool) (badge : String) (newBadges : List String) : List String :=
  if cond && !newBadges.contains badge then newBadges ++ [badge] else newBadges

/-- The `Check Achievements` effect (lines 246-274): the badge list after the
effect has run with the given dependencies. -/
def checkAchievements (badges : List String) (completedTasks streak : Nat)
    (tasks : List Task) : List String :=
  let newBadges := badges
  let newBadges := pushBadge (decide (completedTasks ≥ 10)) "🎯 Getting Started" newBadges
  let newBadges := pushBadge (decide (completedTasks ≥ 100)) "💯 Pro Planner" newBadges
  let newBadges := pushBadge (decide (streak ≥ 7)) "🕖 Consistency King" newBadges
  let newBadges := pushBadge (decide (streak ≥ 30)) "📅 Monthly Master" newBadges
  let newBadges :=
    pushBadge (decide ((categoriesUsed tasks).length ≥ 5)) "🏷️ Category Pro" newBadges
  if newBadges ≠ badges then newBadges else badges

/-- The badge list after a sequence of runs of the effect, each with its own
`(completedTasks, streak, tasks)`. -/
def recheckAchievements (badges : List String) (runs : List (Nat × Nat × List Task)) :
    List String :=
  runs.foldl (fun b r => checkAchievements b r.1 r.2.1 r.2.2) badges

/-! ## Persisted store -/

/-- The initializer of the `tasks` state (lines 71-79).  `saved` is the result
of `localStorage.getItem("tasks")` (`none` for `null`); `jsonParse` is
`JSON.parse`, with `none` for a thrown `SyntaxError`; `empty` is the array
literal `[]`.  A falsy `saved` (`null` or the empty string) takes the `[]`
branch of the conditional, a throw is caught and answers `[]`. -/
def initialTasks {V : Type} (jsonParse : String → Option V) (empty : V)
    (saved : Option String) : V :=
  match saved with
  | none => empty
  | some saved =>
    if saved = "" then empty
    else
      match jsonParse saved with
      | some value => value
      | none => empty

/-- The initializer of the `badges` state (lines 101-109), of the same shape
as that of `tasks`. -/
def initialBadges {V : Type} (jsonParse : String → Option V) (empty : V)
    (saved : Option String) : V :=
  match saved with
  | none => empty
  | some saved =>
    if saved = "" then empty
    else
      match jsonParse saved with
      | some value => value
      | none => empty

/-- The function `parseInt(string, 10)`: skip leading white space, read an
optional sign, then the longest run of decimal digits; `NaN` when that run is
empty.  The value is the exact integer, which is what the code holds below
`2^53`. -/
def parseInt (string : String) : JsNum :=
  let stripped := string.data.dropWhile isWhiteSpace
  let sign : Int :=
    match stripped with
    | '-' :: _ => -1
    | _ => 1
  let body :=
    match stripped with
    | '-' :: rest => rest
    | '+' :: rest => rest
    | _ => stripped
  let digits := body.takeWhile Char.isDigit
  if digits = [] then none
  else some (sign * digits.foldl (fun acc c => 10 * acc + ((c.toNat : Int) - 48)) 0)

/-- The initializer of the `streak` state (lines 91-94): `0` for a falsy
`saved`, otherwise whatever `parseInt` answers; there is no `try` and no test
for `NaN`. -/
def initialStreak (saved : Option String) : JsNum :=
  match saved with
  | none => some 0
  | some saved => if saved = "" then some 0 else parseInt saved

/-! ## Specification-side definitions -/

/-- The threshold table of the specification, in table order: each badge with
whether its trigger holds for the given statistics. -/
def badgeTable (completedCount streakCount distinctCategoryCount : Nat) :
    List (String × Bool) :=
  [("🎯 Getting Started", decide (completedCount ≥ 10)),
   ("💯 Pro Planner", decide (completedCount ≥ 100)),
   ("🕖 Consistency King", decide (streakCount ≥ 7)),
   ("📅 Monthly Master", decide (streakCount ≥ 30)),
   ("🏷️ Category Pro", decide (distinctCategoryCount ≥ 5))]

/-- The number of distinct non-empty categories among the tasks. -/
def distinctCategoryCount (tasks : List Task) : Nat :=
  ((tasks.map fun t => t.category).toFinset.erase "").card

/-- The specification's view predicate: the text contains the query ignoring
case (every task when the query is empty) and the status matches the filter. -/
def matchesView (toLowerCase : String → String) (searchQuery filter : String) (t : Task) :
    Prop :=
  (searchQuery = "" ∨ (toLowerCase searchQuery).data <:+: (toLowerCase t.text).data) ∧
  (filter = "completed" → t.completed = true) ∧
  (filter = "pending" → t.completed = false)

instance (toLowerCase : String → String) (searchQuery filter : String) (t : Task) :
    Decidable (matchesView toLowerCase searchQuery filter t) := by
  unfold matchesView; infer_instance

/-- Task `a` has strictly higher priority than task `b` in the order
high, medium, low. -/
def higherPriority (a b : Task) : Prop :=
  (a.priority = "high" ∧ b.priority ≠ "high") ∨ (a.priority = "medium" ∧ b.priority = "low")

/-- The text is empty or consists of white space only. -/
def isBlank (text : String) : Bool :=
  text.data.all isWhiteSpace

/-- The number the comparator's first key assigns to a task. -/
def priorityRank (t : Task) : Int :=
  sortValue (priorityOrder t.priority)

/-! ## Sample data -/

/-- A pending task with id `1`. -/
def pendingTask : Task :=
  { id := 1, text := "write report", completed := false, due := .unset, priority := "medium",
    category := "", createdAt := some 1000 }

/-- A completed task with id `2`. -/
def completedTask : Task :=
  { id := 2, text := "pay rent", completed := true, due := .date 5000, priority := "high",
    category := "home", createdAt := some 2000 }

/-- A state with one pending and one completed task, a streak of two days and
the last completion on day `9`. -/
def sampleState : TodoState :=
  { tasks := [pendingTask, completedTask], streak := 2, lastCompleteDate := some 9 }

/-- Two accepted `addTask` calls that read the same `Date.now()` value. -/
def sameClockAdds : List Op :=
  [.add { newTask := "a", dueDate := .unset, priority := "medium", category := "",
          now := 5, created := 5 },
   .add { newTask := "b", dueDate := .unset, priority := "medium", category := "",
          now := 5, created := 5 }]

/-- A session in which two accepted `addTask` calls read the same `Date.now()`
value: it ends with a pending task `a` and a completed task `b`, both with id
`5`, a streak of `1` and the last completion on day `1`. -/
def duplicateIdSession : List Op :=
  [.add { newTask := "a", dueDate := .unset, priority := "medium", category := "",
          now := 5, created := 5 },
   .toggle 5 1,
   .add { newTask := "b", dueDate := .unset, priority := "medium", category := "",
          now := 5, created := 6 },
   .toggle 5 1]

/-- A session whose accepted `addTask` calls read distinct clock values. -/
def sampleSession : List Op :=
  [.add { newTask := "a", dueDate := .unset, priority := "medium", category := "",
          now := 5, created := 5 },
   .toggle 5 1,
   .add { newTask := "  ", dueDate := .unset, priority := "low", category := "",
          now := 5, created := 5 },
   .add { newTask := "b", dueDate := .date 9000, priority := "high", category := "x",
          now := 6, created := 6 },
   .edit (some 6) "c" .unset "low" " y ",
   .remove 5,
   .clearAll false]

/-- A session that adds a task and then saves an edit of it with the edit
field cleared. -/
def emptyTextSession : List Op :=
  [.add { newTask := "buy milk", dueDate := .unset, priority := "medium", category := "",
          now := 5, created := 5 },
   .edit (some 5) "" .unset "medium" ""]

/-- The three `addTask` calls of the sort scenario, with the clock values each
call reads: `A` (high, no due date), `B` (low, due 2024-01-01), `C` (high, due
2024-01-02).  The due dates are the time values of the UTC midnights. -/
def scenarioCalls (nowA createdA nowB createdB nowC createdC : Nat) : List AddCall :=
  [{ newTask := "A", dueDate := .unset, priority := "high", category := "",
     now := nowA, created := createdA },
   { newTask := "B", dueDate := .date 1704067200000, priority := "low", category := "",
     now := nowB, created := createdB },
   { newTask := "C", dueDate := .date 1704153600000, priority := "high", category := "",
     now := nowC, created := createdC }]

/-- Task `A` of the sort scenario. -/
def taskA (now created : Nat) : Task :=
  { id := now, text := "A", completed := false, due := .unset, priority := "high",
    category := "", createdAt := some (created : Int) }

/-- Task `B` of the sort scenario. -/
def taskB (now created : Nat) : Task :=
  { id := now, text := "B", completed := false, due := .date 1704067200000, priority := "low",
    category := "", createdAt := some (created : Int) }

/-- Task `C` of the sort scenario. -/
def taskC (now created : Nat) : Task :=
  { id := now, text := "C", completed := false, due := .date 1704153600000, priority := "high",
    category := "", createdAt := some (created : Int) }

/-- A due-dated task created last. -/
def cycleA : Task :=
  { id := 3, text := "a", completed := false, due := .date 20, priority := "medium",
    category := "", createdAt := some 3 }

/-- A task without due date created second. -/
def cycleB : Task :=
  { id := 2, text := "b", completed := false, due := .unset, priority := "medium",
    category := "", createdAt := some 2 }

/-- A task created first whose due date is earlier than that of `cycleA`. -/
def cycleC : Task :=
  { id := 1, text := "c", completed := false, due := .date 10, priority := "medium",
    category := "", createdAt := some 1 }

/-! ## Theorems -/

/-! ### Streak step -/

theorem dayTime_sub_eq_oneDay (a b : Int) : dayTime a - dayTime b = oneDay ↔ b = a - 1 := by
  simp only [dayTime, oneDay]
  constructor <;> intro h <;> omega

theorem streakStep_cases (streak : Nat) (last : Option Day) (today : Day) :
    streakStep streak last today = recordCompletionSpec streak last today := by
  unfold streakStep recordCompletionSpec
  cases last with
  | none => simp
  | some l =>
    by_cases h : l = today
    · simp [h]
    · by_cases hy : l = today - 1
      · simp [hy]
      · simp [h, hy, dayTime_sub_eq_oneDay]

theorem find?_map_toggle (tasks : List Task) (id : Nat) :
    (tasks.map fun task =>
        if task.id = id then { task with completed := !task.completed } else task).find?
      (fun task => decide (task.id = id)) =
    (tasks.find? fun task => decide (task.id = id)).map
      fun task => { task with completed := !task.completed } := by
  induction tasks with
  | nil => rfl
  | cons t ts ih =>
    by_cases h : t.id = id
    · simp [List.find?_cons, h]
    · simpa [List.find?_cons, h] using ih

/-- Toggling a task that the lookup finds pending runs the streak step. -/
theorem toggleTask_of_pending (s : TodoState) (id : Nat) (today : Day) (t : Task)
    (hfind : s.tasks.find? (fun task => decide (task.id = id)) = some t)
    (hpend : t.completed = false) :
    toggleTask s id today =
      ⟨{ tasks := s.tasks.map fun task =>
            if task.id = id then { task with completed := !task.completed } else task
         streak := (streakStep s.streak s.lastCompleteDate today).1
         lastCompleteDate := (streakStep s.streak s.lastCompleteDate today).2 }, none⟩ := by
  unfold toggleTask
  simp only [find?_map_toggle, hfind, Option.map_some', hpend]
  rfl

/-- Toggling a task that the lookup finds completed only rewrites the tasks. -/
theorem toggleTask_of_completed (s : TodoState) (id : Nat) (today : Day) (t : Task)
    (hfind : s.tasks.find? (fun task => decide (task.id = id)) = some t)
    (hdone : t.completed = true) :
    toggleTask s id today =
      ⟨{ s with tasks := s.tasks.map fun task =>
            if task.id = id then { task with completed := !task.completed } else task }, none⟩ := by
  unfold toggleTask
  simp only [find?_map_toggle, hfind, Option.map_some', hdone]
  rfl

/-- Toggling an id that the lookup does not find raises after queuing the
(unchanged) task list. -/
theorem toggleTask_of_absent (s : TodoState) (id : Nat) (today : Day)
    (hfind : s.tasks.find? (fun task => decide (task.id = id)) = none) :
    toggleTask s id today =
      ⟨{ s with tasks := s.tasks.map fun task =>
            if task.id = id then { task with completed := !task.completed } else task },
        some "TypeError"⟩ := by
  unfold toggleTask
  simp only [find?_map_toggle, hfind, Option.map_none']

/-- C1: the streak step of `toggleTask` is the three-case rule of the
specification, for every streak count, last completion date and current day;
and a `toggleTask` whose task goes from pending to completed leaves exactly the
count and date of that rule. -/
theorem streakStep_eq_recordCompletionSpec (s : TodoState) (id : Nat) (today : Day) :
    streakStep s.streak s.lastCompleteDate today =
        recordCompletionSpec s.streak s.lastCompleteDate today ∧
    ∀ t, s.tasks.find? (fun task => decide (task.id = id)) = some t → t.completed = false →
      ((toggleTask s id today).state.streak, (toggleTask s id today).state.lastCompleteDate) =
        recordCompletionSpec s.streak s.lastCompleteDate today := by
  refine ⟨streakStep_cases _ _ _, fun t hfind hpend => ?_⟩
  rw [toggleTask_of_pending s id today t hfind hpend, ← streakStep_cases]

/-- Witness for C1: toggling the pending task of the sample state on day `10`,
the day after the last completion, takes the streak from `2` to `3`. -/
theorem streakStep_eq_recordCompletionSpec_witness :
    ((toggleTask sampleState 1 10).state.streak,
      (toggleTask sampleState 1 10).state.lastCompleteDate) = (3, some 10) :=
  ((streakStep_eq_recordCompletionSpec sampleState 1 10).2 pendingTask rfl rfl).trans
    (by decide)

/-! ### Achievements -/

/-- The guarded pushes of the effect over a table of badges. -/
theorem pushBadge_eq (cond : Bool) (badge : String) (l : List String) :
    pushBadge cond badge l = l ++ if cond && !l.contains badge then [badge] else [] := by
  unfold pushBadge
  split <;> simp

theorem foldl_pushBadge_eq (table : List (String × Bool))
    (hnodup : (table.map Prod.fst).Nodup) (l : List String) :
    table.foldl (fun acc e => pushBadge e.2 e.1 acc) l =
      l ++ (table.filter fun e => e.2 && !l.contains e.1).map Prod.fst := by
  induction table generalizing l with
  | nil => simp
  | cons e rest ih =>
    rw [List.map_cons, List.nodup_cons] at hnodup
    obtain ⟨hnot, hrest⟩ := hnodup
    rw [List.foldl_cons, ih hrest, pushBadge_eq]
    by_cases hc : (e.2 && !l.contains e.1) = true
    · have hfilter : (rest.filter fun e' => e'.2 && !(l ++ [e.1]).contains e'.1) =
          rest.filter fun e' => e'.2 && !l.contains e'.1 := by
        apply List.filter_congr
        intro e' he'
        have hne : e'.1 ≠ e.1 := fun h => hnot (h ▸ List.mem_map_of_mem Prod.fst he')
        simp [hne]
      rw [if_pos hc, hfilter, List.filter_cons, if_pos hc, List.map_cons, List.append_assoc,
        List.singleton_append]
    · rw [if_neg hc, List.append_nil, List.filter_cons, if_neg hc]

theorem categoriesUsed_length (tasks : List Task) :
    (categoriesUsed tasks).length = distinctCategoryCount tasks := by
  unfold categoriesUsed distinctCategoryCount
  rw [← List.card_toFinset, List.toFinset_filter]
  congr 1
  ext c
  simp [and_comm]

theorem badgeTable_nodup (c s d : Nat) : ((badgeTable c s d).map Prod.fst).Nodup := by
  simp [badgeTable]

theorem checkAchievements_eq (badges : List String) (completed streak : Nat)
    (tasks : List Task) :
    checkAchievements badges completed streak tasks =
      badges ++ ((badgeTable completed streak (distinctCategoryCount tasks)).filter
        fun e => e.2 && !badges.contains e.1).map Prod.fst := by
  rw [← foldl_pushBadge_eq _ (badgeTable_nodup _ _ _), ← categoriesUsed_length]
  unfold checkAchievements
  simp only [badgeTable, List.foldl_cons, List.foldl_nil, ne_eq, ite_not, ite_eq_right_iff]
  exact fun h => h.symm

theorem mem_badges_iff (table : List (String × Bool)) (hnodup : (table.map Prod.fst).Nodup)
    (l : List String) (e : String × Bool) (he : e ∈ table) :
    e.1 ∈ l ++ (table.filter fun e' => e'.2 && !l.contains e'.1).map Prod.fst ↔
      e.1 ∈ l ∨ e.2 = true := by
  constructor
  · intro h
    rcases List.mem_append.1 h with h | h
    · exact Or.inl h
    · obtain ⟨e', he', hfst⟩ := List.mem_map.1 h
      obtain ⟨hmem, hcond⟩ := List.mem_filter.1 he'
      have heq : e' = e := List.inj_on_of_nodup_map hnodup hmem he hfst
      subst heq
      simp only [Bool.and_eq_true] at hcond
      exact Or.inr hcond.1
  · intro h
    by_cases hl : e.1 ∈ l
    · exact List.mem_append_left _ hl
    · rcases h with h | h
      · exact absurd h hl
      · refine List.mem_append_right _ (List.mem_map.2 ⟨e, List.mem_filter.2 ⟨he, ?_⟩, rfl⟩)
        simp [h, hl]

/-- C2: the achievements effect implements the threshold table.  Each of the
five badges is in the resulting list exactly when it was in the prior list or
its threshold holds (completed tasks at least 10 / 100, streak at least 7 / 30,
at least 5 distinct non-empty categories), and the result is the prior list
followed by the newly granted badges in table order. -/
theorem checkAchievements_threshold_table (badges : List String) (completed streak : Nat)
    (tasks : List Task) :
    ("🎯 Getting Started" ∈ checkAchievements badges completed streak tasks ↔
        "🎯 Getting Started" ∈ badges ∨ completed ≥ 10) ∧
    ("💯 Pro Planner" ∈ checkAchievements badges completed streak tasks ↔
        "💯 Pro Planner" ∈ badges ∨ completed ≥ 100) ∧
    ("🕖 Consistency King" ∈ checkAchievements badges completed streak tasks ↔
        "🕖 Consistency King" ∈ badges ∨ streak ≥ 7) ∧
    ("📅 Monthly Master" ∈ checkAchievements badges completed streak tasks ↔
        "📅 Monthly Master" ∈ badges ∨ streak ≥ 30) ∧
    ("🏷️ Category Pro" ∈ checkAchievements badges completed streak tasks ↔
        "🏷️ Category Pro" ∈ badges ∨ distinctCategoryCount tasks ≥ 5) ∧
    checkAchievements badges completed streak tasks =
      badges ++ ((badgeTable completed streak (distinctCategoryCount tasks)).filter
        fun e => e.2 && !badges.contains e.1).map Prod.fst := by
  have key := fun e he =>
    mem_badges_iff (badgeTable completed streak (distinctCategoryCount tasks))
      (badgeTable_nodup _ _ _) badges e he
  rw [checkAchievements_eq]
  refine ⟨?_, ?_, ?_, ?_, ?_, rfl⟩
  · simpa using key ("🎯 Getting Started", decide (completed ≥ 10)) (by simp [badgeTable])
  · simpa using key ("💯 Pro Planner", decide (completed ≥ 100)) (by simp [badgeTable])
  · simpa using key ("🕖 Consistency King", decide (streak ≥ 7)) (by simp [badgeTable])
  · simpa using key ("📅 Monthly Master", decide (streak ≥ 30)) (by simp [badgeTable])
  · simpa using key ("🏷️ Category Pro", decide (distinctCategoryCount tasks ≥ 5))
      (by simp [badgeTable])

/-! ### Adding tasks -/

theorem trim_eq_empty_iff (s : String) : trim s = "" ↔ isBlank s = true := by
  unfold trim isBlank
  rw [String.ext_iff]
  show List.rdropWhile isWhiteSpace (List.dropWhile isWhiteSpace s.data) = [] ↔ _
  rw [List.rdropWhile_eq_nil_iff, List.all_eq_true]
  constructor
  · intro h
    have hnil : List.dropWhile isWhiteSpace s.data = [] := by
      by_contra hne
      have hhead := List.head_dropWhile_not isWhiteSpace s.data hne
      rw [h _ (List.head_mem hne)] at hhead
      exact Bool.noConfusion hhead
    exact List.dropWhile_eq_nil_iff.1 hnil
  · intro h x hx
    exact h x ((List.dropWhile_sublist _).subset hx)

theorem addTask_length (tasks : List Task) (c : AddCall) :
    (addTask tasks c.newTask c.dueDate c.priority c.category c.now c.created).length =
      tasks.length + if isBlank c.newTask then 0 else 1 := by
  unfold addTask
  by_cases h : trim c.newTask = ""
  · simp [h, (trim_eq_empty_iff _).1 h]
  · have hb : isBlank c.newTask = false := by
      cases hb : isBlank c.newTask
      · rfl
      · exact absurd ((trim_eq_empty_iff _).2 hb) h
    simp [h, hb]

theorem addAll_length (tasks : List Task) (calls : List AddCall) :
    (addAll tasks calls).length =
      tasks.length + (calls.filter fun c => !isBlank c.newTask).length := by
  unfold addAll
  induction calls generalizing tasks with
  | nil => simp
  | cons c cs ih =>
    rw [List.foldl_cons, ih, addTask_length, List.filter_cons]
    cases isBlank c.newTask
    · simp; omega
    · simp

/-- C3: `addTask` leaves the collection unchanged when the trimmed text is
empty (which is exactly when the text is empty or white space only) and
otherwise appends exactly one task, with the trimmed text and `completed`
false; so a sequence of add calls grows the collection by the number of calls
whose text is not blank. -/
theorem addTask_appends_trimmed (tasks : List Task) (newTask : String) (dueDate : Due)
    (priority category : String) (now created : Nat) (calls : List AddCall) :
    (trim newTask = "" ↔ isBlank newTask = true) ∧
    (trim newTask = "" →
      addTask tasks newTask dueDate priority category now created = tasks) ∧
    (trim newTask ≠ "" →
      ∃ t, addTask tasks newTask dueDate priority category now created = tasks ++ [t] ∧
        t.text = trim newTask ∧ t.completed = false) ∧
    (addAll tasks calls).length =
      tasks.length + (calls.filter fun c => !isBlank c.newTask).length := by
  refine ⟨trim_eq_empty_iff _, fun h => ?_, fun h => ?_, addAll_length _ _⟩
  · simp [addTask, h]
  · rw [addTask, if_neg h]
    exact ⟨_, rfl, rfl, rfl⟩

/-- Witness for C3: adding the text `"  hi "` to the empty collection appends
one pending task. -/
theorem addTask_appends_trimmed_witness :
    ∃ t, addTask [] "  hi " .unset "low" "" 7 7 = [] ++ [t] ∧
      t.text = trim "  hi " ∧ t.completed = false :=
  (addTask_appends_trimmed [] "  hi " .unset "low" "" 7 7 []).2.2.1 (by decide)

/-! ### Toggling an absent id -/

/-- C4 as stated fails: no task of the sample state has id `3`, and
`toggleTask` with that id leaves the state as it was but raises a `TypeError`
instead of completing. -/
theorem toggleTask_absent_id_raises :
    (∀ t ∈ sampleState.tasks, t.id ≠ 3) ∧
    toggleTask sampleState 3 10 = ⟨sampleState, some "TypeError"⟩ ∧
    (toggleTask sampleState 3 10).error ≠ none := by
  decide

/-- For every collection and every id absent from it, `toggleTask` raises and
leaves tasks, streak and last completion date unchanged. -/
theorem toggleTask_absent (s : TodoState) (id : Nat) (today : Day)
    (habs : ∀ t ∈ s.tasks, t.id ≠ id) :
    toggleTask s id today = ⟨s, some "TypeError"⟩ := by
  have hfind : s.tasks.find? (fun task => decide (task.id = id)) = none := by
    rw [List.find?_eq_none]
    intro t ht
    simpa using habs t ht
  rw [toggleTask_of_absent s id today hfind]
  have hmap : (s.tasks.map fun task =>
      if task.id = id then { task with completed := !task.completed } else task) = s.tasks := by
    conv_rhs => rw [← List.map_id s.tasks]
    apply List.map_congr_left
    intro t ht
    simp [habs t ht]
  rw [hmap]

/-! ### Sorting -/

theorem insertSorted_perm {α : Type} (cmp : α → α → JsNum) (x : α) (l : List α) :
    (insertSorted cmp x l).Perm (x :: l) := by
  induction l with
  | nil => exact List.Perm.refl _
  | cons y ys ih =>
    unfold insertSorted
    split
    · exact List.Perm.refl _
    · exact (List.Perm.cons y ih).trans (List.Perm.swap x y ys)

theorem foldl_insertSorted_perm {α : Type} (cmp : α → α → JsNum) (l acc : List α) :
    (l.foldl (fun acc x => insertSorted cmp x acc) acc).Perm (acc ++ l) := by
  induction l generalizing acc with
  | nil => simp
  | cons x xs ih =>
    rw [List.foldl_cons]
    refine (ih _).trans ?_
    refine ((insertSorted_perm cmp x acc).append_right xs).trans ?_
    simpa using (@List.perm_middle _ x acc xs).symm

theorem sort_perm {α : Type} (cmp : α → α → JsNum) (l : List α) : (sort cmp l).Perm l := by
  simpa [sort] using foldl_insertSorted_perm cmp l []

/-- A valid priority looks up its rank in `priorityOrder`. -/
theorem priorityOrder_of_valid {t : Task}
    (h : t.priority = "high" ∨ t.priority = "medium" ∨ t.priority = "low") :
    priorityOrder t.priority = some (priorityRank t) := by
  rcases h with h | h | h <;> simp [priorityRank, priorityOrder, sortValue, h]

theorem compareTasks_of_rank_ne {x y : Task}
    (hx : priorityOrder x.priority = some (priorityRank x))
    (hy : priorityOrder y.priority = some (priorityRank y))
    (hne : priorityRank x ≠ priorityRank y) :
    compareTasks x y = some (priorityRank x - priorityRank y) := by
  simp [compareTasks, hx, hy, hne, jsSub]

theorem compareTasks_lt_rank {x y : Task}
    (hx : priorityOrder x.priority = some (priorityRank x))
    (hy : priorityOrder y.priority = some (priorityRank y))
    (hlt : sortValue (compareTasks x y) < 0) : priorityRank x ≤ priorityRank y := by
  by_contra hij
  have hne : priorityRank x ≠ priorityRank y := fun h => hij (le_of_eq h)
  rw [compareTasks_of_rank_ne hx hy hne] at hlt
  simp only [sortValue, Option.getD_some] at hlt
  omega

theorem compareTasks_not_lt_rank {x y : Task}
    (hx : priorityOrder x.priority = some (priorityRank x))
    (hy : priorityOrder y.priority = some (priorityRank y))
    (hlt : ¬ sortValue (compareTasks x y) < 0) : priorityRank y ≤ priorityRank x := by
  by_contra hij
  have hne : priorityRank x ≠ priorityRank y := fun h => hij (le_of_eq h.symm)
  rw [compareTasks_of_rank_ne hx hy hne] at hlt
  simp only [sortValue, Option.getD_some] at hlt
  omega

/-- Inserting a task keeps a list of valid-priority tasks ordered by rank. -/
theorem insertSorted_rank (x : Task) (l : List Task)
    (hx : priorityOrder x.priority = some (priorityRank x))
    (hv : ∀ t ∈ l, priorityOrder t.priority = some (priorityRank t))
    (hl : l.Pairwise fun a b => priorityRank a ≤ priorityRank b) :
    (insertSorted compareTasks x l).Pairwise fun a b => priorityRank a ≤ priorityRank b := by
  induction l with
  | nil => simp [insertSorted]
  | cons y ys ih =>
    rw [List.pairwise_cons] at hl
    have hy := hv y (List.mem_cons_self _ _)
    unfold insertSorted
    split
    · rename_i hlt
      have hxy := compareTasks_lt_rank hx hy hlt
      refine List.pairwise_cons.2 ⟨?_, List.pairwise_cons.2 hl⟩
      intro z hz
      rcases List.mem_cons.1 hz with hz | hz
      · rw [hz]; exact hxy
      · exact le_trans hxy (hl.1 z hz)
    · rename_i hlt
      have hyx := compareTasks_not_lt_rank hx hy hlt
      refine List.pairwise_cons.2 ⟨?_, ih (fun t ht => hv t (List.mem_cons_of_mem _ ht)) hl.2⟩
      intro z hz
      rcases List.mem_cons.1 ((insertSorted_perm compareTasks x ys).subset hz) with hz | hz
      · rw [hz]; exact hyx
      · exact hl.1 z hz

theorem foldl_insertSorted_rank (l acc : List Task)
    (hv : ∀ t ∈ acc ++ l, priorityOrder t.priority = some (priorityRank t))
    (hacc : acc.Pairwise fun a b => priorityRank a ≤ priorityRank b) :
    (l.foldl (fun acc x => insertSorted compareTasks x acc) acc).Pairwise
      fun a b => priorityRank a ≤ priorityRank b := by
  induction l generalizing acc with
  | nil => simpa using hacc
  | cons x xs ih =>
    rw [List.foldl_cons]
    apply ih
    · intro t ht
      rcases List.mem_append.1 ht with ht | ht
      · rcases List.mem_cons.1 ((insertSorted_perm compareTasks x acc).subset ht) with h | h
        · exact hv t (by simp [h])
        · exact hv t (by simp [h])
      · exact hv t (by simp [ht])
    · exact insertSorted_rank x acc (hv x (by simp))
        (fun t ht => hv t (by simp [ht])) hacc

theorem rank_le_not_higher {a b : Task}
    (ha : a.priority = "high" ∨ a.priority = "medium" ∨ a.priority = "low")
    (hb : b.priority = "high" ∨ b.priority = "medium" ∨ b.priority = "low")
    (h : priorityRank a ≤ priorityRank b) : ¬ higherPriority b a := by
  unfold higherPriority
  rcases ha with ha | ha | ha <;> rcases hb with hb | hb | hb <;>
    simp [priorityRank, priorityOrder, sortValue, ha, hb] at h ⊢

theorem sort_priority_first (l : List Task)
    (hvalid : ∀ t ∈ l, t.priority = "high" ∨ t.priority = "medium" ∨ t.priority = "low") :
    (sort compareTasks l).Pairwise fun a b => ¬ higherPriority b a := by
  have hrank := foldl_insertSorted_rank l []
    (fun t ht => priorityOrder_of_valid (hvalid t (by simpa using ht))) List.Pairwise.nil
  have hmem : ∀ t ∈ sort compareTasks l,
      t.priority = "high" ∨ t.priority = "medium" ∨ t.priority = "low" :=
    fun t ht => hvalid t ((sort_perm compareTasks l).subset ht)
  exact List.Pairwise.imp_of_mem (fun {a b} ha hb h => rank_le_not_higher (hmem a ha) (hmem b hb) h)
    hrank

theorem compareTasks_le_rank {x y : Task}
    (hx : priorityOrder x.priority = some (priorityRank x))
    (hy : priorityOrder y.priority = some (priorityRank y))
    (hle : sortValue (compareTasks x y) ≤ 0) : priorityRank x ≤ priorityRank y := by
  by_contra hij
  have hne : priorityRank x ≠ priorityRank y := fun h => hij (le_of_eq h)
  rw [compareTasks_of_rank_ne hx hy hne] at hle
  simp only [sortValue, Option.getD_some] at hle
  omega

/-- Any arrangement whose neighbours are in comparator order is ordered by
rank, whatever algorithm produced it. -/
theorem chain_rank (out : List Task)
    (hv : ∀ t ∈ out, priorityOrder t.priority = some (priorityRank t))
    (hchain : out.Chain' fun a b => sortValue (compareTasks a b) ≤ 0) :
    out.Pairwise fun a b => priorityRank a ≤ priorityRank b := by
  induction out with
  | nil => exact List.Pairwise.nil
  | cons a rest ih =>
    have hrest := ih (fun t ht => hv t (List.mem_cons_of_mem _ ht)) hchain.tail
    refine List.pairwise_cons.2 ⟨?_, hrest⟩
    cases rest with
    | nil => intro z hz; cases hz
    | cons b rest' =>
      have hab : priorityRank a ≤ priorityRank b :=
        compareTasks_le_rank (hv a (by simp)) (hv b (by simp)) (List.chain'_cons.1 hchain).1
      intro z hz
      rcases List.mem_cons.1 hz with hz | hz
      · rw [hz]; exact hab
      · exact le_trans hab ((List.pairwise_cons.1 hrest).1 z hz)

theorem chain_priority_first (out : List Task)
    (hvalid : ∀ t ∈ out, t.priority = "high" ∨ t.priority = "medium" ∨ t.priority = "low")
    (hchain : out.Chain' fun a b => sortValue (compareTasks a b) ≤ 0) :
    out.Pairwise fun a b => ¬ higherPriority b a :=
  List.Pairwise.imp_of_mem
    (fun {a b} ha hb h => rank_le_not_higher (hvalid a ha) (hvalid b hb) h)
    (chain_rank out (fun t ht => priorityOrder_of_valid (hvalid t ht)) hchain)

theorem filteredTasks_sublist (toLowerCase : String → String) (tasks : List Task)
    (searchQuery filter : String) :
    (filteredTasks toLowerCase tasks searchQuery filter).Sublist tasks :=
  List.filter_sublist _

/-- C5: the sort puts priority first.  For every task list whose priorities
are all high, medium or low, the sorted output is a rearrangement of the
input in which no task stands before a task of strictly higher priority,
whatever the due dates and creation times; the same holds for `sortedTasks`
under every search query and status filter, and for every arrangement of the
tasks whose neighbours are in comparator order. -/
theorem sortedTasks_priority_first (toLowerCase : String → String) (tasks : List Task)
    (searchQuery filter : String)
    (hvalid : ∀ t ∈ tasks, t.priority = "high" ∨ t.priority = "medium" ∨ t.priority = "low") :
    ((sort compareTasks tasks).Perm tasks ∧
      (sort compareTasks tasks).Pairwise fun a b => ¬ higherPriority b a) ∧
    ((sortedTasks toLowerCase tasks searchQuery filter).Perm
        (filteredTasks toLowerCase tasks searchQuery filter) ∧
      (sortedTasks toLowerCase tasks searchQuery filter).Pairwise
        fun a b => ¬ higherPriority b a) ∧
    ∀ out : List Task, out.Perm tasks →
      (out.Chain' fun a b => sortValue (compareTasks a b) ≤ 0) →
      out.Pairwise fun a b => ¬ higherPriority b a :=
  ⟨⟨sort_perm _ _, sort_priority_first tasks hvalid⟩,
    ⟨sort_perm _ _, sort_priority_first _ fun t ht =>
      hvalid t ((filteredTasks_sublist toLowerCase tasks searchQuery filter).subset ht)⟩,
    fun out hperm hchain => chain_priority_first out (fun t ht => hvalid t (hperm.subset ht)) hchain⟩

/-- Witness for C5: the sample tasks (one medium, one high) have valid
priorities, and their sorted order has no task before one of higher priority. -/
theorem sortedTasks_priority_first_witness :
    (sort compareTasks [pendingTask, completedTask]).Pairwise
      fun a b => ¬ higherPriority b a :=
  (sortedTasks_priority_first (fun s => s) [pendingTask, completedTask] "" "all"
    (by decide)).1.2

/-! ### Filtering -/

theorem filter_pred_iff (toLowerCase : String → String) (searchQuery filter : String)
    (t : Task) :
    (if searchQuery ≠ "" ∧ !includes (toLowerCase t.text) (toLowerCase searchQuery) then false
      else if filter = "completed" then t.completed
      else if filter = "pending" then !t.completed
      else true) = decide (matchesView toLowerCase searchQuery filter t) := by
  unfold matchesView includes
  by_cases hq : searchQuery = ""
  · by_cases hc : filter = "completed"
    · by_cases hdone : t.completed = true <;> simp [hq, hc, hdone]
    · by_cases hp : filter = "pending"
      · by_cases hdone : t.completed = true <;> simp [hq, hp, hdone]
      · simp [hq, hc, hp]
  · by_cases hin : (toLowerCase searchQuery).data <:+: (toLowerCase t.text).data
    · by_cases hc : filter = "completed"
      · by_cases hdone : t.completed = true <;> simp [hq, hin, hc, hdone]
      · by_cases hp : filter = "pending"
        · by_cases hdone : t.completed = true <;> simp [hq, hin, hp, hdone]
        · simp [hq, hin, hc, hp]
    · simp [hq, hin]

/-- C6: the filter stage.  For every collection, search query and status
filter, `filteredTasks` is the sub-sequence of the collection, in its original
order, of exactly the tasks whose lower-cased text contains the lower-cased
query (every task when the query is empty) and whose status matches the filter
(completed, pending, or any). -/
theorem filteredTasks_eq_matchesView (toLowerCase : String → String) (tasks : List Task)
    (searchQuery filter : String) :
    filteredTasks toLowerCase tasks searchQuery filter =
        tasks.filter (fun t => decide (matchesView toLowerCase searchQuery filter t)) ∧
    (filteredTasks toLowerCase tasks searchQuery filter).Sublist tasks ∧
    ∀ t, t ∈ filteredTasks toLowerCase tasks searchQuery filter ↔
      t ∈ tasks ∧ matchesView toLowerCase searchQuery filter t := by
  have heq : filteredTasks toLowerCase tasks searchQuery filter =
      tasks.filter (fun t => decide (matchesView toLowerCase searchQuery filter t)) := by
    unfold filteredTasks
    exact List.filter_congr fun t _ => filter_pred_iff toLowerCase searchQuery filter t
  refine ⟨heq, filteredTasks_sublist _ _ _ _, fun t => ?_⟩
  rw [heq, List.mem_filter, decide_eq_true_eq]

/-! ### Badge monotonicity -/

theorem checkAchievements_extends (badges : List String) (completed streak : Nat)
    (tasks : List Task) : badges <+: checkAchievements badges completed streak tasks := by
  rw [checkAchievements_eq]
  exact List.prefix_append _ _

theorem recheckAchievements_extends (badges : List String)
    (runs : List (Nat × Nat × List Task)) : badges <+: recheckAchievements badges runs := by
  unfold recheckAchievements
  induction runs generalizing badges with
  | nil => exact List.prefix_refl _
  | cons r rs ih =>
    rw [List.foldl_cons]
    exact (checkAchievements_extends badges r.1 r.2.1 r.2.2).trans (ih _)

/-- C7: badges are never removed.  For every prior badge list and every
sequence of recomputations with arbitrary statistics (a single recomputation
included), the prior list is a prefix of the resulting list: every prior badge
is still there, at the same position. -/
theorem badges_never_removed (badges : List String) (runs : List (Nat × Nat × List Task)) :
    badges <+: recheckAchievements badges runs ∧
    (∀ b ∈ badges, b ∈ recheckAchievements badges runs) ∧
    (∀ i, i < badges.length → (recheckAchievements badges runs)[i]? = badges[i]?) ∧
    ∀ completed streak tasks i, i < badges.length →
      (checkAchievements badges completed streak tasks)[i]? = badges[i]? := by
  have hpre := recheckAchievements_extends badges runs
  refine ⟨hpre, fun b hb => hpre.subset hb, fun i hi => ?_, fun completed streak tasks i hi => ?_⟩
  · obtain ⟨t, ht⟩ := hpre
    rw [← ht, List.getElem?_append_left hi]
  · obtain ⟨t, ht⟩ := checkAchievements_extends badges completed streak tasks
    rw [← ht, List.getElem?_append_left hi]

/-- Witness for C7: with statistics below every threshold the granted badge
stays at position `0`. -/
theorem badges_never_removed_witness :
    (recheckAchievements ["💯 Pro Planner"] [(0, 0, []), (12, 0, [])])[0]? =
      ["💯 Pro Planner"][0]? :=
  (badges_never_removed ["💯 Pro Planner"] [(0, 0, []), (12, 0, [])]).2.2.1 0 (by decide)

/-! ### Consecutive days -/

theorem recordCompletions_succ (D : Int) (n : Nat) :
    recordCompletions 0 none ((List.range (n + 1)).map fun (i : Nat) => D + (i : Int)) =
      (n + 1, some (D + (n : Int))) := by
  induction n with
  | zero => simp [recordCompletions, streakStep, List.range_succ]
  | succ k ih =>
    rw [List.range_succ, List.map_append]
    unfold recordCompletions at ih ⊢
    rw [List.foldl_append, ih]
    have h1 : ¬ (D + (k : Int) = D + ((k + 1 : Nat) : Int)) := by push_cast; omega
    have h2 : D + (k : Int) = D + ((k + 1 : Nat) : Int) - 1 := by push_cast; omega
    simp [streakStep, h1, h2]

/-- C8: from the initial streak state (count `0`, no completion date), one
completion on each of the `n` consecutive days `D, D+1, ..., D+n-1` leaves the
count at `n`, for every day `D` and every `n`; in particular completions on
`D`, `D+1`, `D+2` give `3`. -/
theorem consecutive_days_streak (D : Day) (n : Nat) :
    (recordCompletions initialState.streak initialState.lastCompleteDate
      ((List.range n).map fun (i : Nat) => D + (i : Int))).1 = n ∧
    (recordCompletions initialState.streak initialState.lastCompleteDate [D, D + 1, D + 2]).1
      = 3 := by
  constructor
  · cases n with
    | zero => rfl
    | succ k =>
      show (recordCompletions 0 none ((List.range (k + 1)).map fun (i : Nat) => D + (i : Int))).1 = k + 1
      rw [recordCompletions_succ]
  · have h := recordCompletions_succ D 2
    have hl : ((List.range (2 + 1)).map fun (i : Nat) => D + (i : Int)) = [D, D + 1, D + 2] := by
      simp [List.range_succ]
    rw [hl] at h
    show (recordCompletions 0 none [D, D + 1, D + 2]).1 = 3
    rw [h]

/-! ### Un-marking a task -/

theorem find?_of_nodup_ids (tasks : List Task) (t : Task) (hmem : t ∈ tasks)
    (hnodup : (tasks.map Task.id).Nodup) :
    tasks.find? (fun task => decide (task.id = t.id)) = some t := by
  induction tasks with
  | nil => cases hmem
  | cons u us ih =>
    rw [List.map_cons, List.nodup_cons] at hnodup
    rw [List.find?_cons]
    by_cases hu : u.id = t.id
    · have htu : t = u := by
        rcases List.mem_cons.1 hmem with h | h
        · exact h
        · exact absurd (hu ▸ List.mem_map_of_mem Task.id h) hnodup.1
      simp [htu]
    · have hne : t ≠ u := fun h => hu (h ▸ rfl)
      have hmem' : t ∈ us := (List.mem_cons.1 hmem).resolve_left hne
      simp only [hu, decide_False]
      exact ih hmem' hnodup.2

/-- C9, amended: un-marking leaves the streak alone when the task looked up is
the completed one.  Whenever the task that `toggleTask` looks up by the id
(the first task with that id) is currently completed, the handler returns
without touching the streak count or the last completion date; in a
collection with pairwise distinct ids this is so for the id of every
completed task. -/
theorem toggleTask_unmark_keeps_streak (s : TodoState) (id : Nat) (today : Day) (t : Task)
    (hdone : t.completed = true) :
    (s.tasks.find? (fun task => decide (task.id = id)) = some t →
      (toggleTask s id today).state.streak = s.streak ∧
      (toggleTask s id today).state.lastCompleteDate = s.lastCompleteDate ∧
      (toggleTask s id today).error = none) ∧
    (t ∈ s.tasks → t.id = id → (s.tasks.map Task.id).Nodup →
      (toggleTask s id today).state.streak = s.streak ∧
      (toggleTask s id today).state.lastCompleteDate = s.lastCompleteDate ∧
      (toggleTask s id today).error = none) := by
  have key : s.tasks.find? (fun task => decide (task.id = id)) = some t →
      (toggleTask s id today).state.streak = s.streak ∧
      (toggleTask s id today).state.lastCompleteDate = s.lastCompleteDate ∧
      (toggleTask s id today).error = none := by
    intro hfind
    rw [toggleTask_of_completed s id today t hfind hdone]
    exact ⟨rfl, rfl, rfl⟩
  refine ⟨key, fun hmem hid hnodup => key ?_⟩
  rw [← hid]
  exact find?_of_nodup_ids s.tasks t hmem hnodup

/-- Witness for C9: un-marking the completed task of the sample state (id `2`)
on day `10` leaves the streak at `2` and the last completion on day `9`. -/
theorem toggleTask_unmark_keeps_streak_witness :
    (toggleTask sampleState 2 10).state.streak = sampleState.streak ∧
    (toggleTask sampleState 2 10).state.lastCompleteDate = sampleState.lastCompleteDate ∧
    (toggleTask sampleState 2 10).error = none :=
  (toggleTask_unmark_keeps_streak sampleState 2 10 completedTask rfl).2
    (by decide) rfl (by decide)

/-! ### Ids -/

theorem toggleTask_tasks (s : TodoState) (id : Nat) (today : Day) :
    (toggleTask s id today).state.tasks =
      s.tasks.map fun task =>
        if task.id = id then { task with completed := !task.completed } else task := by
  cases hfind : s.tasks.find? (fun task => decide (task.id = id)) with
  | none => rw [toggleTask_of_absent s id today hfind]
  | some t =>
    cases hdone : t.completed with
    | false => rw [toggleTask_of_pending s id today t hfind hdone]
    | true => rw [toggleTask_of_completed s id today t hfind hdone]

theorem map_id_toggle (tasks : List Task) (id : Nat) :
    (tasks.map fun task =>
      if task.id = id then { task with completed := !task.completed } else task).map Task.id =
      tasks.map Task.id := by
  rw [List.map_map]
  apply List.map_congr_left
  intro t _
  by_cases h : t.id = id <;> simp [h]

theorem map_id_saveEdit (tasks : List Task) (editingId : Option Nat) (editText : String)
    (dueDate : Due) (priority category : String) :
    (saveEdit tasks editingId editText dueDate priority category).map Task.id =
      tasks.map Task.id := by
  unfold saveEdit
  rw [List.map_map]
  apply List.map_congr_left
  intro t _
  by_cases h : some t.id = editingId <;> simp [h]

theorem step_ids_sublist (s : TodoState) (op : Op) :
    ((step s op).tasks.map Task.id).Sublist (s.tasks.map Task.id ++ clockReads [op]) := by
  cases op with
  | add c =>
    by_cases h : trim c.newTask = ""
    · simp [step, addTask, clockReads, h]
    · simp [step, addTask, clockReads, h]
  | toggle id today =>
    show ((toggleTask s id today).state.tasks.map Task.id).Sublist _
    rw [toggleTask_tasks, map_id_toggle]
    simp [clockReads]
  | edit editingId editText dueDate priority category =>
    show ((saveEdit s.tasks editingId editText dueDate priority category).map Task.id).Sublist _
    rw [map_id_saveEdit]
    simp [clockReads]
  | remove id =>
    simpa [step, clockReads, deleteTask] using (List.filter_sublist s.tasks).map Task.id
  | clearAll confirmed =>
    cases confirmed <;> simp [step, clockReads, clearAll]

theorem clockReads_cons (op : Op) (ops : List Op) :
    clockReads (op :: ops) = clockReads [op] ++ clockReads ops := by
  unfold clockReads
  rw [← List.filterMap_append]
  rfl

theorem clockReads_append (pre post : List Op) :
    clockReads (pre ++ post) = clockReads pre ++ clockReads post := by
  unfold clockReads
  exact List.filterMap_append _ _ _

/-- The ids in the collection are, in order, among the clock values read by
the accepted adds. -/
theorem run_ids_sublist (ops : List Op) (s : TodoState) (reads : List Nat)
    (hs : (s.tasks.map Task.id).Sublist reads) :
    ((run s ops).tasks.map Task.id).Sublist (reads ++ clockReads ops) := by
  induction ops generalizing s reads with
  | nil => simpa [run, clockReads] using hs
  | cons op ops ih =>
    have hstep : ((step s op).tasks.map Task.id).Sublist (reads ++ clockReads [op]) :=
      (step_ids_sublist s op).trans (List.Sublist.append hs (List.Sublist.refl _))
    have h := ih (step s op) (reads ++ clockReads [op]) hstep
    rw [List.append_assoc, ← clockReads_cons] at h
    exact h

theorem run_initial_ids_sublist (ops : List Op) :
    ((run initialState ops).tasks.map Task.id).Sublist (clockReads ops) := by
  simpa [initialState] using run_ids_sublist ops initialState [] (by simp [initialState])

/-- C10 as stated fails: two accepted adds that read the same `Date.now()`
value leave two tasks with the same id. -/
theorem ids_not_unique_same_clock :
    ¬ ((run initialState sameClockAdds).tasks.map Task.id).Nodup := by
  decide

/-- C10, amended: when the clock values read by the accepted `addTask` calls
of a sequence of add / toggle / edit / remove / clearAll actions from the empty
collection are pairwise distinct, every task created gets an id different from
every id already in the collection, and the ids in the collection are pairwise
distinct. -/
theorem ids_unique_of_distinct_clock (ops : List Op) (hclock : (clockReads ops).Nodup) :
    ((run initialState ops).tasks.map Task.id).Nodup ∧
    ∀ pre c post, ops = pre ++ Op.add c :: post → trim c.newTask ≠ "" →
      c.now ∉ (run initialState pre).tasks.map Task.id ∧
      (run initialState (pre ++ [Op.add c])).tasks =
        (run initialState pre).tasks ++
          [{ id := c.now, text := trim c.newTask, completed := false, due := c.dueDate,
             priority := c.priority, category := trim c.category,
             createdAt := some (c.created : Int) }] := by
  refine ⟨(run_initial_ids_sublist ops).nodup hclock, fun pre c post hops hc => ⟨?_, ?_⟩⟩
  · intro hmem
    have hpre := (run_initial_ids_sublist pre).subset hmem
    rw [hops, clockReads_append, clockReads_cons] at hclock
    have hdis := (List.nodup_append.1 hclock).2.2
    exact hdis hpre (by simp [clockReads, hc])
  · simp [run, List.foldl_append, step, addTask, hc]

/-- Witness for C10: the sample session reads distinct clock values at its
accepted adds and ends with pairwise distinct ids. -/
theorem ids_unique_of_distinct_clock_witness :
    ((run initialState sampleSession).tasks.map Task.id).Nodup :=
  (ids_unique_of_distinct_clock sampleSession (by decide)).1

/-! ### Task text -/

theorem step_text_nonempty (s : TodoState) (op : Op)
    (hedit : ∀ editingId editText dueDate priority category,
      op = Op.edit editingId editText dueDate priority category → editText ≠ "")
    (hs : ∀ t ∈ s.tasks, t.text ≠ "") : ∀ t ∈ (step s op).tasks, t.text ≠ "" := by
  cases op with
  | add c =>
    intro t ht
    by_cases h : trim c.newTask = ""
    · exact hs t (by simpa [step, addTask, h] using ht)
    · simp only [step, addTask, if_neg h, List.mem_append, List.mem_singleton] at ht
      rcases ht with ht | ht
      · exact hs t ht
      · rw [ht]; exact h
  | toggle id today =>
    intro t ht
    change t ∈ (toggleTask s id today).state.tasks at ht
    rw [toggleTask_tasks] at ht
    obtain ⟨u, hu, hut⟩ := List.mem_map.1 ht
    by_cases h : u.id = id
    · rw [if_pos h] at hut
      rw [← hut]; exact hs u hu
    · rw [if_neg h] at hut
      rw [← hut]; exact hs u hu
  | edit editingId editText dueDate priority category =>
    intro t ht
    change t ∈ saveEdit s.tasks editingId editText dueDate priority category at ht
    obtain ⟨u, hu, hut⟩ := List.mem_map.1 ht
    by_cases h : some u.id = editingId
    · rw [if_pos h] at hut
      rw [← hut]; exact hedit _ _ _ _ _ rfl
    · rw [if_neg h] at hut
      rw [← hut]; exact hs u hu
  | remove id =>
    intro t ht
    exact hs t (List.mem_of_mem_filter ht)
  | clearAll confirmed =>
    intro t ht
    cases confirmed
    · exact hs t ht
    · cases ht

/-- As long as no edit is saved with an empty text, every task in every state
reached from the empty collection has a non-empty text. -/
theorem run_text_nonempty_of_edits (ops : List Op) (s : TodoState)
    (hedit : ∀ op ∈ ops, ∀ editingId editText dueDate priority category,
      op = Op.edit editingId editText dueDate priority category → editText ≠ "")
    (hs : ∀ t ∈ s.tasks, t.text ≠ "") : ∀ t ∈ (run s ops).tasks, t.text ≠ "" := by
  induction ops generalizing s with
  | nil => exact hs
  | cons op ops ih =>
    exact ih (step s op) (fun o ho => hedit o (List.mem_cons_of_mem _ ho))
      (step_text_nonempty s op (hedit op (List.mem_cons_self _ _)) hs)

/-- C11 (the code at the failing input): adding a task and then saving an edit
of it with the edit field cleared leaves a task whose text is empty. -/
theorem saveEdit_stores_empty_text :
    (run initialState emptyTextSession).tasks.map Task.text = [""] ∧
    ∃ t ∈ (run initialState emptyTextSession).tasks, t.text = "" := by
  decide

/-! ### Editing -/

/-- C12: `saveEdit` replaces fields in place.  The result has the same length
and the same ids in the same order; position by position, a task whose id is
the editing id keeps its id, `completed` and `createdAt` and gets the edited
text, due date, priority and trimmed category, and a task with another id is
unchanged. -/
theorem saveEdit_in_place (tasks : List Task) (editingId : Option Nat) (editText : String)
    (dueDate : Due) (priority category : String) :
    (saveEdit tasks editingId editText dueDate priority category).length = tasks.length ∧
    (saveEdit tasks editingId editText dueDate priority category).map Task.id =
      tasks.map Task.id ∧
    List.Forall₂
      (fun t u =>
        (some t.id = editingId →
          u.id = t.id ∧ u.completed = t.completed ∧ u.createdAt = t.createdAt ∧
          u.text = editText ∧ u.due = dueDate ∧ u.priority = priority ∧
          u.category = trim category) ∧
        (some t.id ≠ editingId → u = t))
      tasks (saveEdit tasks editingId editText dueDate priority category) := by
  refine ⟨by simp [saveEdit], map_id_saveEdit _ _ _ _ _ _, ?_⟩
  unfold saveEdit
  rw [List.forall₂_map_right_iff, List.forall₂_same]
  intro t _
  by_cases h : some t.id = editingId
  · simp [h]
  · simp [h]

/-! ### Toggling twice -/

theorem map_toggle_twice (tasks : List Task) (id : Nat) :
    ((tasks.map fun task =>
        if task.id = id then { task with completed := !task.completed } else task).map
      fun task => if task.id = id then { task with completed := !task.completed } else task) =
      tasks := by
  rw [List.map_map]
  conv_rhs => rw [← List.map_id tasks]
  apply List.map_congr_left
  intro t _
  by_cases h : t.id = id
  · subst h
    cases t
    simp
  · simp [h]

theorem find?_of_present (tasks : List Task) (id : Nat) (hpresent : ∃ u ∈ tasks, u.id = id) :
    ∃ t, tasks.find? (fun task => decide (task.id = id)) = some t := by
  cases hfind : tasks.find? (fun task => decide (task.id = id)) with
  | some t => exact ⟨t, rfl⟩
  | none =>
    obtain ⟨u, hu, hid⟩ := hpresent
    have := List.find?_eq_none.1 hfind u hu
    simp [hid] at this

/-- C13: `toggleTask` is its own inverse on the task collection.  For every
collection and every id present in it, two applications return the original
collection and neither raises; and with `t` the task the handler looks up by
the id, the application that takes `t` from pending to completed (the first
when `t` is pending, the second when `t` is completed) runs the streak step
while the other leaves the streak count and last completion date as they
were. -/
theorem toggleTask_twice (s : TodoState) (id : Nat) (d1 d2 : Day)
    (hpresent : ∃ u ∈ s.tasks, u.id = id) :
    (toggleTask (toggleTask s id d1).state id d2).state.tasks = s.tasks ∧
    (toggleTask s id d1).error = none ∧
    (toggleTask (toggleTask s id d1).state id d2).error = none ∧
    ∃ t, s.tasks.find? (fun task => decide (task.id = id)) = some t ∧
      (t.completed = false →
        ((toggleTask s id d1).state.streak, (toggleTask s id d1).state.lastCompleteDate) =
            streakStep s.streak s.lastCompleteDate d1 ∧
        (toggleTask (toggleTask s id d1).state id d2).state.streak =
            (toggleTask s id d1).state.streak ∧
        (toggleTask (toggleTask s id d1).state id d2).state.lastCompleteDate =
            (toggleTask s id d1).state.lastCompleteDate) ∧
      (t.completed = true →
        (toggleTask s id d1).state.streak = s.streak ∧
        (toggleTask s id d1).state.lastCompleteDate = s.lastCompleteDate ∧
        ((toggleTask (toggleTask s id d1).state id d2).state.streak,
          (toggleTask (toggleTask s id d1).state id d2).state.lastCompleteDate) =
            streakStep s.streak s.lastCompleteDate d2) := by
  obtain ⟨t, hfind⟩ := find?_of_present s.tasks id hpresent
  have hfind1 : (toggleTask s id d1).state.tasks.find? (fun task => decide (task.id = id)) =
      some { t with completed := !t.completed } := by
    rw [toggleTask_tasks, find?_map_toggle, hfind]
    rfl
  have htasks : (toggleTask (toggleTask s id d1).state id d2).state.tasks = s.tasks := by
    rw [toggleTask_tasks, toggleTask_tasks, map_toggle_twice]
  cases hdone : t.completed with
  | false =>
    have h2 := toggleTask_of_completed (toggleTask s id d1).state id d2 _ hfind1
      (by simp [hdone])
    have h1 := toggleTask_of_pending s id d1 t hfind hdone
    refine ⟨htasks, by rw [h1], by rw [h2], t, hfind, fun _ => ⟨by rw [h1], ?_, ?_⟩,
      fun (h : t.completed = true) => absurd (hdone.symm.trans h) (by decide)⟩
    · rw [h2]
    · rw [h2]
  | true =>
    have h2 := toggleTask_of_pending (toggleTask s id d1).state id d2 _ hfind1
      (by simp [hdone])
    have h1 := toggleTask_of_completed s id d1 t hfind hdone
    refine ⟨htasks, by rw [h1], by rw [h2], t, hfind,
      fun (h : t.completed = false) => absurd (hdone.symm.trans h) (by decide),
      fun _ => ⟨by rw [h1], by rw [h1], ?_⟩⟩
    rw [h2, h1]

/-- Witness for C13: toggling the pending task of the sample state (id `1`) on
day `10` and again on day `11` returns the original tasks. -/
theorem toggleTask_twice_witness :
    (toggleTask (toggleTask sampleState 1 10).state 1 11).state.tasks = sampleState.tasks :=
  (toggleTask_twice sampleState 1 10 11 ⟨pendingTask, by decide, rfl⟩).1

/-! ### Persisted payloads -/

/-- A `tasks` or `badges` payload that `JSON.parse` rejects loads as `[]`. -/
theorem initial_of_malformed {V : Type} (jsonParse : String → Option V) (empty : V)
    (saved : String) (hbad : jsonParse saved = none) :
    initialTasks jsonParse empty (some saved) = empty ∧
    initialBadges jsonParse empty (some saved) = empty := by
  unfold initialTasks initialBadges
  by_cases h : saved = ""
  · simp [h]
  · simp [h, hbad]

/-- An absent or empty `streak` payload loads as `0`, and a decimal integer as
its value. -/
theorem initialStreak_wellformed :
    initialStreak none = some 0 ∧ initialStreak (some "") = some 0 ∧
    initialStreak (some "12") = some 12 := by
  decide

/-- C14 (the code at the failing input): a `streak` payload that is not a
decimal integer does not load as the default `0`; `"abc"` loads as `NaN` and
`"12abc"` as `12`. -/
theorem initialStreak_malformed :
    initialStreak (some "abc") = none ∧ initialStreak (some "abc") ≠ some 0 ∧
    initialStreak (some "12abc") = some 12 := by
  decide

/-! ### Sort scenario -/

theorem addAll_scenarioCalls (nowA createdA nowB createdB nowC createdC : Nat) :
    addAll [] (scenarioCalls nowA createdA nowB createdB nowC createdC) =
      [taskA nowA createdA, taskB nowB createdB, taskC nowC createdC] := by
  have hA : trim "A" = "A" := by decide
  have hB : trim "B" = "B" := by decide
  have hC : trim "C" = "C" := by decide
  have hE : trim "" = "" := by decide
  have hA' : ¬ ("A" = "") := by decide
  have hB' : ¬ ("B" = "") := by decide
  have hC' : ¬ ("C" = "") := by decide
  simp [addAll, scenarioCalls, addTask, taskA, taskB, taskC, hA, hB, hC, hE, hA', hB', hC']

theorem filteredTasks_all (toLowerCase : String → String) (tasks : List Task) :
    filteredTasks toLowerCase tasks "" "all" = tasks := by
  unfold filteredTasks
  apply List.filter_eq_self.2
  intro t _
  have h1 : ¬ ("all" = "completed") := by decide
  have h2 : ¬ ("all" = "pending") := by decide
  simp [h1, h2]

theorem compareTasks_B_A (nowA createdA nowB createdB : Nat) :
    compareTasks (taskB nowB createdB) (taskA nowA createdA) = some 2 := by
  have h : priorityOrder "low" = some 3 := by decide
  have h' : priorityOrder "high" = some 1 := by decide
  simp [compareTasks, taskA, taskB, h, h', jsSub]

theorem compareTasks_C_A (nowA createdA nowC createdC : Nat) :
    compareTasks (taskC nowC createdC) (taskA nowA createdA) =
      some ((createdA : Int) - (createdC : Int)) := by
  simp [compareTasks, taskA, taskC, Due.truthy, jsSub]

/-- C15 as stated fails: when the three calls read the same clock value, `A`
and `C` compare equal and the stable sort leaves `A` in front. -/
theorem scenario_same_clock :
    sortedTasks (fun q => q) (addAll [] (scenarioCalls 1000 1000 1000 1000 1000 1000)) "" "all" =
        [taskA 1000 1000, taskC 1000 1000, taskB 1000 1000] ∧
    sortedTasks (fun q => q) (addAll [] (scenarioCalls 1000 1000 1000 1000 1000 1000)) "" "all" ≠
        [taskC 1000 1000, taskA 1000 1000, taskB 1000 1000] := by
  decide

/-- C15, amended: when `addTask` is called for `A`, `B`, `C` in this order on
the empty collection and the creation time read for `C` is later than the one
read for `A`, the sorted view with filter `all` and empty search is
`[C, A, B]`. -/
theorem scenario_sorted (toLowerCase : String → String)
    (nowA createdA nowB createdB nowC createdC : Nat) (hclock : createdA < createdC) :
    sortedTasks toLowerCase
        (addAll [] (scenarioCalls nowA createdA nowB createdB nowC createdC)) "" "all" =
      [taskC nowC createdC, taskA nowA createdA, taskB nowB createdB] := by
  unfold sortedTasks
  rw [filteredTasks_all, addAll_scenarioCalls]
  have hlt : (createdA : Int) - (createdC : Int) < 0 := by omega
  simp [sort, insertSorted, compareTasks_B_A, compareTasks_C_A, sortValue, hlt]

/-- Witness for C15: with the clock advancing by one between the calls the
sorted view is `[C, A, B]`. -/
theorem scenario_sorted_witness :
    sortedTasks (fun q => q) (addAll [] (scenarioCalls 1 1 2 2 3 3)) "" "all" =
      [taskC 3 3, taskA 1 1, taskB 2 2] :=
  scenario_sorted (fun q => q) 1 1 2 2 3 3 (by decide)

/-! ### The comparator is not transitive -/

/-- C16: the comparator is not a strict total order.  There are three tasks
of equal priority, `a` and `c` with due dates and `b` without, that the
comparator orders `a` before `b`, `b` before `c` and `c` before `a`; so the
comparator's "before" relation is not transitive. -/
theorem compareTasks_not_transitive :
    (∃ a b c : Task,
      a.priority = b.priority ∧ b.priority = c.priority ∧
      a.due.truthy = true ∧ c.due.truthy = true ∧ b.due.truthy = false ∧
      sortValue (compareTasks a b) < 0 ∧ sortValue (compareTasks b c) < 0 ∧
      sortValue (compareTasks c a) < 0) ∧
    ¬ ∀ a b c : Task, sortValue (compareTasks a b) < 0 → sortValue (compareTasks b c) < 0 →
      sortValue (compareTasks a c) < 0 := by
  have hab : sortValue (compareTasks cycleA cycleB) < 0 := by decide
  have hbc : sortValue (compareTasks cycleB cycleC) < 0 := by decide
  have hca : sortValue (compareTasks cycleC cycleA) < 0 := by decide
  have hac : ¬ sortValue (compareTasks cycleA cycleC) < 0 := by decide
  exact ⟨⟨cycleA, cycleB, cycleC, rfl, rfl, rfl, rfl, rfl, hab, hbc, hca⟩,
    fun h => hac (h cycleA cycleB cycleC hab hbc)⟩

/-! ### Un-marking with a duplicated id -/

/-- C9 as stated fails: the session with a duplicated id ends with the
completed task `b` of id `5` behind the pending task `a` of the same id;
un-marking `b` on day `2` marks `a`, and the streak step moves the streak from
`1` (last completion on day `1`) to `2` (day `2`). -/
theorem toggleTask_unmark_changes_streak :
    (∃ t ∈ (run initialState duplicateIdSession).tasks, t.id = 5 ∧ t.completed = true) ∧
    (run initialState duplicateIdSession).streak = 1 ∧
    (run initialState duplicateIdSession).lastCompleteDate = some 1 ∧
    (toggleTask (run initialState duplicateIdSession) 5 2).state.streak = 2 ∧
    (toggleTask (run initialState duplicateIdSession) 5 2).state.lastCompleteDate = some 2 := by
  decide

/-! ### Toggling by the id of a listed task -/

/-- With the id of a task in the collection, as the checkbox of a listed task
passes it, `toggleTask` does not raise. -/
theorem toggleTask_present (s : TodoState) (id : Nat) (today : Day)
    (hpresent : ∃ t ∈ s.tasks, t.id = id) : (toggleTask s id today).error = none := by
  obtain ⟨t, hfind⟩ := find?_of_present s.tasks id hpresent
  cases hdone : t.completed with
  | false => rw [toggleTask_of_pending s id today t hfind hdone]
  | true => rw [toggleTask_of_completed s id today t hfind hdone]

/-- C4, amended: for every collection and every id not present in it,
`toggleTask` leaves the task collection, the streak count and the last
completion date unchanged; and for every id the to-do list passes to it, the
id of a task in the collection, the operation completes without raising an
error. -/
theorem toggleTask_absent_keeps_state (s : TodoState) (id : Nat) (today : Day) :
    ((∀ t ∈ s.tasks, t.id ≠ id) →
      (toggleTask s id today).state = s ∧
      (toggleTask s id today).state.tasks = s.tasks ∧
      (toggleTask s id today).state.streak = s.streak ∧
      (toggleTask s id today).state.lastCompleteDate = s.lastCompleteDate) ∧
    ((∃ t ∈ s.tasks, t.id = id) → (toggleTask s id today).error = none) := by
  refine ⟨fun habs => ?_, toggleTask_present s id today⟩
  rw [toggleTask_absent s id today habs]
  exact ⟨rfl, rfl, rfl, rfl⟩

/-- Witness for C4: id `3` is absent from the sample state and toggling it
leaves the state unchanged; id `1` is present and toggling it does not raise. -/
theorem toggleTask_absent_keeps_state_witness :
    (toggleTask sampleState 3 10).state = sampleState ∧
    (toggleTask sampleState 1 10).error = none :=
  ⟨((toggleTask_absent_keeps_state sampleState 3 10).1 (by decide)).1,
    (toggleTask_absent_keeps_state sampleState 1 10).2 ⟨pendingTask, by decide, rfl⟩⟩

end LifeTrack
